import Mathlib

/-!
Verification of the delivery-order normalization engine.

The source is a Rust program (src/main.rs, src/htsc.rs) that reads
tab-separated brokerage delivery-order export files, normalizes each line
into a `DeliveryOrder` record, classifies the business-type column into a
trade action, and maintains a running per-security-code ledger
(`Context.count : HashMap<String, i64>`) whose totals are attached to each
record.  Producers send valid records plus one `None` sentinel per file
into a channel; a single consumer drains it, stopping after as many
sentinels as there were input files.

This file is a shallow embedding of that logic.  Rust panics
(`assert_eq!`, `.expect(..)`, `.unwrap()`) are modelled by `none` /
failure results: the source functions have no error channel, so a `none`
result of an embedded function means the corresponding Rust code aborts
the process at that point.  Machine integers (`i64`) are modelled by
unbounded `Int`; the inputs of interest are far from overflow.
-/

/-- The trade-action taxonomy, from `enum Trade` in src/main.rs
(`Buy, Sell, In, Out, Ignore`).  The spec calls `In`/`Out`
`TransferIn`/`TransferOut`. -/
inductive Trade where
  | Buy
  | Sell
  | In
  | Out
  | Ignore
deriving DecidableEq, Repr

/-- `impl Default for Trade` in src/main.rs returns `Trade::Ignore`. -/
instance : Inhabited Trade := ⟨Trade.Ignore⟩

/-- The canonical record, from `struct DeliveryOrder` in src/main.rs.
All fields are strings except the classified `trade`; `Default` gives
empty strings and `Trade::Ignore`. -/
structure DeliveryOrder where
  code : String := ""
  name : String := ""
  date : String := ""
  kind : String := ""
  count : String := ""
  prize : String := ""
  amount : String := ""
  owned : String := ""
  trade : Trade := Trade.Ignore
deriving DecidableEq, Repr

/-- Builder `DeliveryOrder::with_code` (src/main.rs). -/
def DeliveryOrder.with_code (o : DeliveryOrder) (v : String) : DeliveryOrder :=
  { o with code := v }

/-- Builder `DeliveryOrder::with_name` (src/main.rs). -/
def DeliveryOrder.with_name (o : DeliveryOrder) (v : String) : DeliveryOrder :=
  { o with name := v }

/-- Builder `DeliveryOrder::with_date` (src/main.rs). -/
def DeliveryOrder.with_date (o : DeliveryOrder) (v : String) : DeliveryOrder :=
  { o with date := v }

/-- Builder `DeliveryOrder::with_kind` (src/main.rs). -/
def DeliveryOrder.with_kind (o : DeliveryOrder) (v : String) : DeliveryOrder :=
  { o with kind := v }

/-- Builder `DeliveryOrder::with_count` (src/main.rs). -/
def DeliveryOrder.with_count (o : DeliveryOrder) (v : String) : DeliveryOrder :=
  { o with count := v }

/-- Builder `DeliveryOrder::with_prize` (src/main.rs). -/
def DeliveryOrder.with_prize (o : DeliveryOrder) (v : String) : DeliveryOrder :=
  { o with prize := v }

/-- Builder `DeliveryOrder::with_amount` (src/main.rs). -/
def DeliveryOrder.with_amount (o : DeliveryOrder) (v : String) : DeliveryOrder :=
  { o with amount := v }

/-- Builder `DeliveryOrder::with_owned` (src/main.rs). -/
def DeliveryOrder.with_owned (o : DeliveryOrder) (v : String) : DeliveryOrder :=
  { o with owned := v }

/-- Builder `DeliveryOrder::with_trade` (src/main.rs). -/
def DeliveryOrder.with_trade (o : DeliveryOrder) (t : Trade) : DeliveryOrder :=
  { o with trade := t }

/-- `DeliveryOrder::is_valid` (src/main.rs lines 306-311): a record is
valid iff its trade is not `Ignore`. -/
def DeliveryOrder.is_valid (o : DeliveryOrder) : Bool :=
  match o.trade with
  | Trade.Ignore => false
  | _ => true

/-- The ledger `Context.count : HashMap<String, i64>` (src/htsc.rs),
modelled as a partial map from security code to running total.
`none` means the key is absent. -/
abbrev Ledger := String → Option Int

/-- `Context::new` starts with an empty map (src/htsc.rs line 20). -/
def Ledger.empty : Ledger := fun _ => none

/-- `Context::add_count` (src/htsc.rs lines 38-40):
`*self.count.entry(key).or_insert(0) += count` — insert 0 when the key is
absent, then add the signed delta.  Only the given key changes. -/
def add_count (m : Ledger) (key : String) (c : Int) : Ledger :=
  fun k => if k = key then some ((m key).getD 0 + c) else m k

/-- `Context::get_count` (src/htsc.rs lines 29-31). -/
def get_count (m : Ledger) (key : String) : Option Int := m key

/-- Rust `char::is_whitespace` restricted to the ASCII whitespace that
occurs in the vendor files (space, tab, newline, carriage return). -/
def isRustWhitespace (c : Char) : Bool :=
  c = ' ' || c = '\t' || c = '\n' || c = '\r'

/-- Rust `str::trim` on the character list: drop whitespace from both
ends. -/
def trimChars (cs : List Char) : List Char :=
  ((cs.dropWhile isRustWhitespace).reverse.dropWhile isRustWhitespace).reverse

/-- Rust `str::trim`. -/
def strTrim (s : String) : String := String.mk (trimChars s.data)

/-- Rust `str::split("\t")` on the character list: the (possibly empty)
chunks between tab characters; the empty input yields one empty chunk,
as in Rust. -/
def splitTabChars : List Char → List (List Char)
  | [] => [[]]
  | '\t' :: r => [] :: splitTabChars r
  | c :: r =>
    match splitTabChars r with
    | [] => [[c]]
    | h :: t => (c :: h) :: t

/-- Rust `str::split("\t")` collected to a vector, as in
`line.trim().split("\t").collect()` (src/htsc.rs line 58). -/
def splitTab (s : String) : List String :=
  (splitTabChars s.data).map (fun cs => String.mk cs)

/-- The decimal fragment of Rust `str::parse::<f64>()` followed by
`as i64` (truncation toward zero), as used on the quantity columns in
`Context::gen_order` (src/htsc.rs lines 79-84, 117-119): an optional
sign, an integer part and an optional fractional part.  Returns `none`
where Rust's parse returns `Err` (the source then panics via
`expect`/`unwrap`). -/
def parseDecimal (s : String) : Option Int :=
  let cs := s.data
  let neg := match cs with
    | '-' :: _ => true
    | _ => false
  let body := match cs with
    | '-' :: r => r
    | '+' :: r => r
    | r => r
  let ip := body.takeWhile (fun c => c ≠ '.')
  let valid := match body.dropWhile (fun c => c ≠ '.') with
    | [] => !ip.isEmpty && ip.all Char.isDigit
    | _ :: fp =>
        ip.all Char.isDigit && fp.all Char.isDigit && (!ip.isEmpty || !fp.isEmpty)
  if valid then
    let n : Int := Int.ofNat (ip.foldl (fun a c => a * 10 + (c.toNat - 48)) 0)
    some (if neg then -n else n)
  else none

/-- The trade classifier: the `match column` arms in `Context::gen_order`
(src/htsc.rs lines 92-116).  Returns the classified action and, for
recognized tokens, the display label stored through `with_kind`; the
fall-through arm sets `Trade::Ignore` and `continue`s past `with_kind`,
so it yields no label. -/
def classify (token : String) : Trade × Option String :=
  if token = "证券卖出" then (Trade.Sell, some "卖出")
  else if token = "证券买入" ∨ token = "开放基金认购结果" then (Trade.Buy, some "买入")
  else if token = "银证转存" ∨ token = "银行转存" ∨ token = "利息归本" then
    (Trade.In, some "银证转入")
  else if token = "银证转取" ∨ token = "银行转取" then (Trade.Out, some "银证转出")
  else (Trade.Ignore, none)

/-- The mutable locals of `Context::gen_order` while the column loop runs:
the record under construction (`delivery_order`), the parsed quantity
magnitude (`count`, src/htsc.rs line 63) and the vendor-reported
remaining quantity (`left_count`, line 64). -/
structure GenState where
  order : DeliveryOrder
  qty : Int
  left : Option Int
deriving DecidableEq, Repr

/-- One iteration of the column loop of `Context::gen_order`
(src/htsc.rs lines 66-122).  Dispatches on the exact title string; the
stored value is the trimmed column except in the classifier arm, which
matches the raw column text (line 93 matches `column`, not `value`).
Quantity columns parse the trimmed text as f64 and truncate
(`none` = the `expect`/`unwrap` panic); the traded quantity takes its
absolute value (line 84). -/
def applyColumn (st : GenState) (title column : String) : Option GenState :=
  if title = "发生日期" ∨ title = "日期" then
    some { st with order := st.order.with_date (strTrim column) }
  else if title = "证券代码" then
    some { st with order := st.order.with_code (strTrim column) }
  else if title = "证券名称" ∨ title = "股票名称" then
    some { st with order := st.order.with_name (strTrim column) }
  else if title = "成交数量" ∨ title = "发生数量" then
    match parseDecimal (strTrim column) with
    | some n => some { st with qty := Int.ofNat n.natAbs }
    | none => none
  else if title = "成交价格" ∨ title = "成交均价" then
    some { st with order := st.order.with_prize (strTrim column) }
  else if title = "发生金额" ∨ title = "收付金额" then
    some { st with order := st.order.with_amount (strTrim column) }
  else if title = "业务名称" ∨ title = "业务标志" then
    match classify column with
    | (t, some label) => some { st with order := (st.order.with_trade t).with_kind label }
    | (t, none) => some { st with order := st.order.with_trade t }
  else if title = "证券数量" then
    match parseDecimal (strTrim column) with
    | some n => some { st with left := some n }
    | none => none
  else
    some st

/-- The whole column loop: fold `applyColumn` over the zipped
(title, column) pairs, aborting at the first panic. -/
def applyColumns : List (String × String) → GenState → Option GenState
  | [], st => some st
  | (t, c) :: rest, st =>
    match applyColumn st t c with
    | none => none
    | some st2 => applyColumns rest st2

/-- The pure front half of `Context::gen_order` (src/htsc.rs lines 57-122):
trim the line, split on tabs, check the column count against the titles
(`assert_eq!`, line 60 — `none` on mismatch), then run the column loop
from the default record. -/
def gen_core (titles : List String) (line : String) : Option GenState :=
  if (splitTab (strTrim line)).length = titles.length then
    applyColumns (titles.zip (splitTab (strTrim line))) { order := {}, qty := 0, left := none }
  else none

/-- The sign finalization of `Context::gen_order` (src/htsc.rs
lines 123-125): negate the parsed magnitude iff the classified trade is
`Sell`. -/
def signedQty (st : GenState) : Int :=
  if st.order.trade = Trade.Sell then -st.qty else st.qty

/-- A ledger-mismatch diagnostic: the `println!` of src/htsc.rs
lines 131-136 reports the vendor-reported remaining quantity
(`left_count`), the locally computed running total, and the record's
transaction date. -/
structure Diag where
  vendor : Int
  total : Int
  date : String
deriving DecidableEq, Repr

/-- `Context::gen_order` (src/htsc.rs lines 57-143): run the column loop,
negate the magnitude iff Sell, apply the delta to the ledger
(`add_count`, line 126), store the signed quantity string (line 127),
then — guarded by `get_count` on the freshly updated ledger — compare the
vendor remaining quantity if present, emitting a diagnostic on mismatch,
and attach the running total through `with_owned` (lines 128-140).
Returns the updated ledger, the record, and the emitted diagnostics;
`none` models a panic. -/
def gen_order (cnt : Ledger) (titles : List String) (line : String) :
    Option (Ledger × DeliveryOrder × List Diag) :=
  match gen_core titles line with
  | none => none
  | some st =>
    let q := signedQty st
    let cnt2 := add_count cnt st.order.code q
    let o1 := st.order.with_count (toString q)
    match get_count cnt2 o1.code with
    | some total =>
      let ds := match st.left with
        | some lc => if lc ≠ total then [⟨lc, total, o1.date⟩] else []
        | none => []
      some (cnt2, o1.with_owned (toString total), ds)
    | none => some (cnt2, o1, [])

/-- The per-file producer loop of `Context::extract_from_file_impl`
(src/htsc.rs lines 176-205): for each data line, run `gen_order`; send
the record iff `is_valid` (lines 187-192); at end of input send one
`None` sentinel (lines 193-202).  The returned flag is `true` when the
loop reached end of input; `false` means a `gen_order` panic killed the
producer before the sentinel was sent.  Also returns the final ledger and
the sequence of channel messages in send order. -/
def extractLines (titles : List String) (cnt : Ledger) :
    List String → Bool × Ledger × List (Option DeliveryOrder)
  | [] => (true, cnt, [none])
  | l :: ls =>
    match gen_order cnt titles l with
    | none => (false, cnt, [])
    | some (cnt2, o, _) =>
      let r := extractLines titles cnt2 ls
      if o.is_valid then (r.1, r.2.1, some o :: r.2.2) else r

/-- Sequential line processing (the same loop as `extractLines`) keeping
every record and every diagnostic, used to state ledger examples:
`none` when some line panics. -/
def runLines (titles : List String) (cnt : Ledger) :
    List String → Option (Ledger × List DeliveryOrder × List Diag)
  | [] => some (cnt, [], [])
  | l :: ls =>
    match gen_order cnt titles l with
    | none => none
    | some (c2, o, ds) =>
      match runLines titles c2 ls with
      | none => none
      | some (c3, os, ds2) => some (c3, o :: os, ds ++ ds2)

/-- The consumer loop of `write_htsc_to_tzzb_excel` (src/main.rs
lines 134-155): receive messages; a record is appended to the sheet; a
`None` sentinel increments `read_stop_counter`, and the loop breaks when
that counter reaches the number of input files.  `n` is the number of
sentinels still expected; the result is the list of appended records. -/
def consume {α : Type} : Nat → List (Option α) → List α
  | _, [] => []
  | n, some r :: rest => r :: consume n rest
  | n, none :: rest => if n = 1 then [] else consume (n - 1) rest

/-- Arrival-order interleaving of the producers' message sequences in the
shared channel: at each step the next message of some producer reaches
the consumer. -/
inductive Interleave {α : Type} : List (List α) → List α → Prop where
  | done : ∀ ls : List (List α), (∀ l ∈ ls, l = []) → Interleave ls []
  | step : ∀ (ls : List (List α)) (i : Nat) (x : α) (l : List α) (out : List α),
      ls[i]? = some (x :: l) → Interleave (ls.set i l) out → Interleave ls (x :: out)

/-- Number of sentinel (`none`) messages still inside the producer
streams. -/
def sentinelCount {α : Type} (ls : List (List (Option α))) : Nat :=
  (ls.map (fun l => l.countP (fun x => x.isNone))).sum

/-! ## Example data -/

/-- The flexible schema used in the concrete examples: code, business
type, traded quantity, vendor remaining quantity, date. -/
def exTitles : List String := ["证券代码", "业务名称", "成交数量", "证券数量", "发生日期"]

/-- Buy 100 of 600000; vendor remaining quantity 100. -/
def exLine1 : String := "600000\t证券买入\t100\t100\t2024-01-01"

/-- Buy 100 of 600000; vendor remaining quantity 200. -/
def exLine2 : String := "600000\t证券买入\t100\t200\t2024-01-02"

/-- Sell 50 of 600000; vendor remaining quantity 150 (consistent). -/
def exLine3ok : String := "600000\t证券卖出\t50\t150\t2024-01-03"

/-- Sell 50 of 600000; vendor remaining quantity 200 (inconsistent). -/
def exLine3bad : String := "600000\t证券卖出\t50\t200\t2024-01-03"

/-- A two-column schema: business type and traded quantity. -/
def sellTitles : List String := ["业务名称", "成交数量"]

/-- A sell of 200 units written as decimal text, as in the spec's
example. -/
def sellLine : String := "证券卖出\t200.0"

/-- The column-loop state produced by `sellLine` under `sellTitles`. -/
def sellState : GenState :=
  { order := { kind := "卖出", trade := Trade.Sell }, qty := 200, left := none }

/-- The record produced by `sellLine` under `sellTitles` from the empty
ledger. -/
def sellOrder : DeliveryOrder :=
  { kind := "卖出", count := "-200", owned := "-200", trade := Trade.Sell }

/-- A line with an unrecognized business type (classified `Ignore`). -/
def ignoreLine : String := "银证转账\t100.0"

/-- The column-loop state produced by `ignoreLine` under `sellTitles`. -/
def ignoreState : GenState :=
  { order := { trade := Trade.Ignore }, qty := 100, left := none }

/-- The record produced by `ignoreLine` under `sellTitles` from the
empty ledger. -/
def ignoreOrder : DeliveryOrder :=
  { count := "100", owned := "100", trade := Trade.Ignore }

/-- The business-type tokens recognized by the classifier. -/
def classifiedTokens : List String :=
  ["证券卖出", "证券买入", "开放基金认购结果", "银证转存", "银行转存", "利息归本", "银证转取", "银行转取"]

/-- A sample valid record used in the queue example. -/
def sampleOrder : DeliveryOrder :=
  { code := "600000", name := "浦发银行", date := "2024-01-01", kind := "买入",
    count := "100", owned := "100", trade := Trade.Buy }

/-! ## Helper definitions and lemmas -/

/-- The running total after the ledger update of one line: the previous
total of the record's code (0 when absent) plus the signed quantity. -/
def postTotal (cnt : Ledger) (st : GenState) : Int :=
  (cnt st.order.code).getD 0 + signedQty st

/-- The record as returned by `gen_order`: signed quantity stored through
`with_count`, running total through `with_owned`. -/
def finalOrder (cnt : Ledger) (st : GenState) : DeliveryOrder :=
  (st.order.with_count (toString (signedQty st))).with_owned (toString (postTotal cnt st))

/-- The diagnostics emitted by one `gen_order` call: one mismatch message
when the line carried a vendor remaining quantity different from the
fresh running total. -/
def finalDiags (cnt : Ledger) (st : GenState) : List Diag :=
  match st.left with
  | some lc => if lc ≠ postTotal cnt st then [⟨lc, postTotal cnt st, st.order.date⟩] else []
  | none => []

theorem get_count_add_count (m : Ledger) (key : String) (c : Int) :
    get_count (add_count m key c) key = some ((m key).getD 0 + c) := by
  simp [get_count, add_count]

/-- Unfolding `gen_order` when the column loop succeeds: the ledger gets
exactly one update at the record's code, and the record receives the
signed quantity and the fresh running total. -/
theorem gen_order_eq (cnt : Ledger) (titles : List String) (line : String)
    (st : GenState) (hcore : gen_core titles line = some st) :
    gen_order cnt titles line =
      some (add_count cnt st.order.code (signedQty st), finalOrder cnt st, finalDiags cnt st) := by
  unfold gen_order
  rw [hcore]
  simp only [get_count, add_count, DeliveryOrder.with_count, if_pos rfl]
  cases hleft : st.left with
  | none =>
    simp [finalOrder, finalDiags, postTotal, hleft,
      DeliveryOrder.with_count, DeliveryOrder.with_owned]
  | some lc =>
    simp [finalOrder, finalDiags, postTotal, hleft,
      DeliveryOrder.with_count, DeliveryOrder.with_owned]

theorem applyColumn_qty_nonneg (st : GenState) (t c : String) (st2 : GenState)
    (h : applyColumn st t c = some st2) (h0 : 0 ≤ st.qty) : 0 ≤ st2.qty := by
  unfold applyColumn at h
  split at h
  · cases h; exact h0
  · split at h
    · cases h; exact h0
    · split at h
      · cases h; exact h0
      · split at h
        · split at h
          · cases h; exact Int.ofNat_nonneg _
          · cases h
        · split at h
          · cases h; exact h0
          · split at h
            · cases h; exact h0
            · split at h
              · split at h
                · cases h; exact h0
                · cases h; exact h0
              · split at h
                · split at h
                  · cases h; exact h0
                  · cases h
                · cases h; exact h0

theorem applyColumns_qty_nonneg :
    ∀ (ps : List (String × String)) (st st2 : GenState),
      applyColumns ps st = some st2 → 0 ≤ st.qty → 0 ≤ st2.qty := by
  intro ps
  induction ps with
  | nil => intro st st2 h h0; cases h; exact h0
  | cons p rest ih =>
    intro st st2 h h0
    unfold applyColumns at h
    split at h
    · cases h
    · rename_i st3 hcol
      exact ih st3 st2 h (applyColumn_qty_nonneg st p.1 p.2 st3 hcol h0)

/-- The parsed quantity magnitude is never negative: it starts at 0 and
every assignment takes an absolute value (src/htsc.rs line 84). -/
theorem gen_core_qty_nonneg (titles : List String) (line : String) (st : GenState)
    (h : gen_core titles line = some st) : 0 ≤ st.qty := by
  unfold gen_core at h
  split at h
  · exact applyColumns_qty_nonneg _ _ _ h (le_refl 0)
  · cases h

theorem finalOrder_code (cnt : Ledger) (st : GenState) :
    (finalOrder cnt st).code = st.order.code := rfl

theorem finalOrder_trade (cnt : Ledger) (st : GenState) :
    (finalOrder cnt st).trade = st.order.trade := rfl

theorem finalOrder_date (cnt : Ledger) (st : GenState) :
    (finalOrder cnt st).date = st.order.date := rfl

/-- The only column that writes the `code` field is `证券代码`, which
stores the trimmed value. -/
theorem applyColumn_code (st : GenState) (t c : String) (st2 : GenState)
    (h : applyColumn st t c = some st2) :
    st2.order.code = st.order.code ∨ (t = "证券代码" ∧ st2.order.code = strTrim c) := by
  unfold applyColumn at h
  split at h
  · cases h; exact Or.inl rfl
  · split at h
    · rename_i ht
      cases h; exact Or.inr ⟨ht, rfl⟩
    · split at h
      · cases h; exact Or.inl rfl
      · split at h
        · split at h
          · cases h; exact Or.inl rfl
          · cases h
        · split at h
          · cases h; exact Or.inl rfl
          · split at h
            · cases h; exact Or.inl rfl
            · split at h
              · split at h
                · cases h; exact Or.inl rfl
                · cases h; exact Or.inl rfl
              · split at h
                · split at h
                  · cases h; exact Or.inl rfl
                  · cases h
                · cases h; exact Or.inl rfl

theorem applyColumns_code :
    ∀ (ps : List (String × String)) (st st2 : GenState),
      applyColumns ps st = some st2 →
      (∀ p ∈ ps, p.1 = "证券代码" → strTrim p.2 = "") →
      st.order.code = "" → st2.order.code = "" := by
  intro ps
  induction ps with
  | nil => intro st st2 h _ h0; cases h; exact h0
  | cons p rest ih =>
    intro st st2 h hp h0
    unfold applyColumns at h
    split at h
    · cases h
    · rename_i st3 hcol
      refine ih st3 st2 h (fun q hq => hp q (List.mem_cons_of_mem _ hq)) ?_
      rcases applyColumn_code st p.1 p.2 st3 hcol with hc | ⟨ht, hc⟩
      · rw [hc, h0]
      · rw [hc, hp p (List.mem_cons_self _ _) ht]

/-- When every value under a `证券代码` title trims to the empty string
(in particular when the schema has no such column at all), the record's
code keeps its default empty value. -/
theorem gen_core_code_empty (titles : List String) (line : String) (st : GenState)
    (h : gen_core titles line = some st)
    (hp : ∀ p ∈ titles.zip (splitTab (strTrim line)), p.1 = "证券代码" → strTrim p.2 = "") :
    st.order.code = "" := by
  unfold gen_core at h
  split at h
  · exact applyColumns_code _ _ _ h hp rfl
  · cases h

/-! ## Claims -/

/-- Claim C1: for every parsed input line the quantity stored in the
record is signed by the classified action.  The magnitude from the
quantity column is non-negative (taken as an absolute value), it is
negated iff the classified action is Sell, and that signed value is both
the accumulation delta and the stored quantity string; a Sell record's
stored quantity is always non-positive and every other action's is
always non-negative. -/
theorem claim_C1_sign_rule (cnt : Ledger) (titles : List String) (line : String)
    (st : GenState) (c2 : Ledger) (o : DeliveryOrder) (ds : List Diag)
    (hcore : gen_core titles line = some st)
    (hgen : gen_order cnt titles line = some (c2, o, ds)) :
    0 ≤ st.qty ∧
    signedQty st = (if o.trade = Trade.Sell then -st.qty else st.qty) ∧
    o.count = toString (signedQty st) ∧
    c2 = add_count cnt o.code (signedQty st) ∧
    (o.trade = Trade.Sell → signedQty st ≤ 0) ∧
    (o.trade ≠ Trade.Sell → 0 ≤ signedQty st) := by
  have hq := gen_core_qty_nonneg titles line st hcore
  rw [gen_order_eq cnt titles line st hcore] at hgen
  simp only [Option.some.injEq, Prod.mk.injEq] at hgen
  obtain ⟨hc2, ho, hds⟩ := hgen
  subst hc2; subst ho; subst hds
  refine ⟨hq, ?_, rfl, rfl, ?_, ?_⟩
  · rw [finalOrder_trade]; rfl
  · intro hS
    rw [finalOrder_trade] at hS
    simp only [signedQty, hS, eq_self_iff_true, ite_true]
    omega
  · intro hS
    rw [finalOrder_trade] at hS
    simp only [signedQty, if_neg hS]
    exact hq

/-- Claim C5: whenever the line carries a vendor-reported remaining
quantity, a diagnostic holding the vendor value, the locally computed
total and the transaction date is emitted exactly when the two values
differ; the record is still returned either way, and the value attached
to its running-balance field is always the locally computed total. -/
theorem claim_C5_mismatch_diag (cnt : Ledger) (titles : List String) (line : String)
    (st : GenState) (c2 : Ledger) (o : DeliveryOrder) (ds : List Diag)
    (hcore : gen_core titles line = some st)
    (hgen : gen_order cnt titles line = some (c2, o, ds)) :
    o.owned = toString (postTotal cnt st) ∧
    (st.left = none → ds = []) ∧
    (∀ lc : Int, st.left = some lc →
       (lc = postTotal cnt st → ds = []) ∧
       (lc ≠ postTotal cnt st → ds = [⟨lc, postTotal cnt st, o.date⟩])) := by
  rw [gen_order_eq cnt titles line st hcore] at hgen
  simp only [Option.some.injEq, Prod.mk.injEq] at hgen
  obtain ⟨hc2, ho, hds⟩ := hgen
  subst hc2; subst ho; subst hds
  refine ⟨rfl, ?_, ?_⟩
  · intro h; simp [finalDiags, h]
  · intro lc h
    constructor
    · intro he; simp [finalDiags, h, he]
    · intro hne; simp [finalDiags, h, hne, finalOrder_date]

/-- Claim C9: the record returned by `gen_order` always has its
running-balance field populated with the post-update running total of
the line's code: the ledger update precedes the lookup, so the
`get_count` guard always succeeds. -/
theorem claim_C9_balance_set (cnt : Ledger) (titles : List String) (line : String)
    (st : GenState) (c2 : Ledger) (o : DeliveryOrder) (ds : List Diag)
    (hcore : gen_core titles line = some st)
    (hgen : gen_order cnt titles line = some (c2, o, ds)) :
    get_count c2 o.code = some (postTotal cnt st) ∧
    o.owned = toString (postTotal cnt st) := by
  rw [gen_order_eq cnt titles line st hcore] at hgen
  simp only [Option.some.injEq, Prod.mk.injEq] at hgen
  obtain ⟨hc2, ho, hds⟩ := hgen
  subst hc2; subst ho; subst hds
  refine ⟨?_, rfl⟩
  rw [finalOrder_code, get_count_add_count]
  rfl

/-- Claim C7: processing one parsed line performs exactly one ledger
update (whatever the classified action, Ignore included), keyed by the
line's code with the signed parsed quantity; every other key's total is
untouched and no key is ever removed. -/
theorem claim_C7_single_update (cnt : Ledger) (titles : List String) (line : String)
    (st : GenState) (c2 : Ledger) (o : DeliveryOrder) (ds : List Diag)
    (hcore : gen_core titles line = some st)
    (hgen : gen_order cnt titles line = some (c2, o, ds)) :
    c2 = add_count cnt o.code (signedQty st) ∧
    (∀ k : String, k ≠ o.code → c2 k = cnt k) ∧
    c2 o.code = some ((cnt o.code).getD 0 + signedQty st) ∧
    (∀ k : String, cnt k ≠ none → c2 k ≠ none) := by
  rw [gen_order_eq cnt titles line st hcore] at hgen
  simp only [Option.some.injEq, Prod.mk.injEq] at hgen
  obtain ⟨hc2, ho, hds⟩ := hgen
  subst hc2; subst ho; subst hds
  refine ⟨rfl, ?_, ?_, ?_⟩
  · intro k hk
    have hk2 : k ≠ st.order.code := by rw [← finalOrder_code cnt st]; exact hk
    simp [add_count, hk2]
  · rw [finalOrder_code]
    simp [add_count]
  · intro k hk
    by_cases hc : k = st.order.code
    · subst hc; simp [add_count]
    · simp [add_count, hc]; exact hk

/-- Claim C10: for a line whose schema has no security-code column (or
whose security-code value is empty), the ledger is still updated, keyed
by the empty string — the record's default code — and the empty-string
bucket's total is what is attached as the record's running balance. -/
theorem claim_C10_empty_code_bucket (cnt : Ledger) (titles : List String) (line : String)
    (st : GenState) (c2 : Ledger) (o : DeliveryOrder) (ds : List Diag)
    (hp : ∀ p ∈ titles.zip (splitTab (strTrim line)), p.1 = "证券代码" → strTrim p.2 = "")
    (hcore : gen_core titles line = some st)
    (hgen : gen_order cnt titles line = some (c2, o, ds)) :
    o.code = "" ∧
    c2 "" = some ((cnt "").getD 0 + signedQty st) ∧
    o.owned = toString ((cnt "").getD 0 + signedQty st) := by
  have hcode := gen_core_code_empty titles line st hcore hp
  rw [gen_order_eq cnt titles line st hcore] at hgen
  simp only [Option.some.injEq, Prod.mk.injEq] at hgen
  obtain ⟨hc2, ho, hds⟩ := hgen
  subst hc2; subst ho; subst hds
  refine ⟨?_, ?_, ?_⟩
  · rw [finalOrder_code, hcode]
  · simp [add_count, hcode]
  · have h1 : (finalOrder cnt st).owned = toString (postTotal cnt st) := rfl
    rw [h1]
    unfold postTotal
    rw [hcode]

/-- Witness for C1: the spec's own example — business type `证券卖出`
with quantity text "200.0" yields magnitude 200 and stored signed
quantity -200. -/
theorem claim_C1_sign_rule_witness :
    0 ≤ sellState.qty ∧
    signedQty sellState = (if sellOrder.trade = Trade.Sell then -sellState.qty else sellState.qty) ∧
    sellOrder.count = toString (signedQty sellState) ∧
    add_count Ledger.empty "" (-200) = add_count Ledger.empty sellOrder.code (signedQty sellState) ∧
    (sellOrder.trade = Trade.Sell → signedQty sellState ≤ 0) ∧
    (sellOrder.trade ≠ Trade.Sell → 0 ≤ signedQty sellState) :=
  claim_C1_sign_rule Ledger.empty sellTitles sellLine sellState
    (add_count Ledger.empty "" (-200)) sellOrder [] (by decide) rfl

/-- Witness for C5: a sell of 50 with vendor remaining quantity 200 from
the empty ledger computes total -50 and emits one mismatch diagnostic
carrying vendor value, local value and the date. -/
theorem claim_C5_mismatch_diag_witness :
    ({ code := "600000", date := "2024-01-03", kind := "卖出", count := "-50",
       owned := "-50", trade := Trade.Sell } : DeliveryOrder).owned =
      toString (postTotal Ledger.empty
        { order := { code := "600000", date := "2024-01-03", kind := "卖出", trade := Trade.Sell },
          qty := 50, left := some 200 }) ∧
    (({ order := { code := "600000", date := "2024-01-03", kind := "卖出", trade := Trade.Sell },
        qty := 50, left := some 200 } : GenState).left = none →
      ([{ vendor := 200, total := -50, date := "2024-01-03" }] : List Diag) = []) ∧
    (∀ lc : Int,
      ({ order := { code := "600000", date := "2024-01-03", kind := "卖出", trade := Trade.Sell },
         qty := 50, left := some 200 } : GenState).left = some lc →
      (lc = postTotal Ledger.empty
          { order := { code := "600000", date := "2024-01-03", kind := "卖出", trade := Trade.Sell },
            qty := 50, left := some 200 } →
        ([{ vendor := 200, total := -50, date := "2024-01-03" }] : List Diag) = []) ∧
      (lc ≠ postTotal Ledger.empty
          { order := { code := "600000", date := "2024-01-03", kind := "卖出", trade := Trade.Sell },
            qty := 50, left := some 200 } →
        ([{ vendor := 200, total := -50, date := "2024-01-03" }] : List Diag) =
          [⟨lc, postTotal Ledger.empty
              { order := { code := "600000", date := "2024-01-03", kind := "卖出", trade := Trade.Sell },
                qty := 50, left := some 200 },
            ({ code := "600000", date := "2024-01-03", kind := "卖出", count := "-50",
               owned := "-50", trade := Trade.Sell } : DeliveryOrder).date⟩])) :=
  claim_C5_mismatch_diag Ledger.empty exTitles exLine3bad
    { order := { code := "600000", date := "2024-01-03", kind := "卖出", trade := Trade.Sell },
      qty := 50, left := some 200 }
    (add_count Ledger.empty "600000" (-50))
    { code := "600000", date := "2024-01-03", kind := "卖出", count := "-50",
      owned := "-50", trade := Trade.Sell }
    [{ vendor := 200, total := -50, date := "2024-01-03" }]
    (by decide) rfl

/-- Witness for C9: the sell example's record carries running balance
-200, the post-update total of its (empty) code. -/
theorem claim_C9_balance_set_witness :
    get_count (add_count Ledger.empty "" (-200)) sellOrder.code =
      some (postTotal Ledger.empty sellState) ∧
    sellOrder.owned = toString (postTotal Ledger.empty sellState) :=
  claim_C9_balance_set Ledger.empty sellTitles sellLine sellState
    (add_count Ledger.empty "" (-200)) sellOrder [] (by decide) rfl

/-- Witness for C7: a line with an unrecognized business type (action
Ignore) still performs exactly one ledger update, and leaves every other
key unchanged. -/
theorem claim_C7_single_update_witness :
    add_count Ledger.empty "" 100 = add_count Ledger.empty ignoreOrder.code (signedQty ignoreState) ∧
    (∀ k : String, k ≠ ignoreOrder.code →
      add_count Ledger.empty "" 100 k = Ledger.empty k) ∧
    add_count Ledger.empty "" 100 ignoreOrder.code =
      some ((Ledger.empty ignoreOrder.code).getD 0 + signedQty ignoreState) ∧
    (∀ k : String, Ledger.empty k ≠ none → add_count Ledger.empty "" 100 k ≠ none) :=
  claim_C7_single_update Ledger.empty sellTitles ignoreLine ignoreState
    (add_count Ledger.empty "" 100) ignoreOrder [] (by decide) rfl

/-- Witness for C10: the two-column sell schema has no security-code
column, so the update lands in the empty-string bucket and the record's
running balance is that bucket's total. -/
theorem claim_C10_empty_code_bucket_witness :
    sellOrder.code = "" ∧
    add_count Ledger.empty "" (-200) "" =
      some ((Ledger.empty "").getD 0 + signedQty sellState) ∧
    sellOrder.owned = toString ((Ledger.empty "").getD 0 + signedQty sellState) :=
  claim_C10_empty_code_bucket Ledger.empty sellTitles sellLine sellState
    (add_count Ledger.empty "" (-200)) sellOrder []
    (by decide) (by decide) rfl

/-- Every `some` message a producer puts into the queue passed the
`is_valid` filter (src/htsc.rs lines 187-192). -/
theorem extractLines_mem_valid :
    ∀ (lines : List String) (titles : List String) (cnt : Ledger) (o : DeliveryOrder),
      some o ∈ (extractLines titles cnt lines).2.2 → o.is_valid = true := by
  intro lines
  induction lines with
  | nil =>
    intro t cnt o h
    simp [extractLines] at h
  | cons l ls ih =>
    intro t cnt o h
    unfold extractLines at h
    cases hg : gen_order cnt t l with
    | none => rw [hg] at h; simp at h
    | some r =>
      rw [hg] at h
      obtain ⟨c2, o2, ds⟩ := r
      by_cases hv : o2.is_valid
      · simp only [hv, if_true, List.mem_cons] at h
        rcases h with h | h
        · cases h; exact hv
        · exact ih t c2 o h
      · simp only [hv, if_false, Bool.false_eq_true] at h
        exact ih t c2 o h

/-- Claim C2: the ledger keeps one integer accumulator per security code
initialized to 0 on first reference, and adding the signed deltas in
line order yields the running totals as a cumulative sum.  Three lines
for code 600000 with quantities 100 (Buy), 100 (Buy), 50 (Sell) yield
running totals 100, 200, 150; with vendor remaining quantity 150 on the
third line no mismatch is logged, with 200 one mismatch diagnostic is
emitted while the stored running balance remains 150. -/
theorem claim_C2_cumulative_ledger :
    (∀ (m : Ledger) (k : String) (c : Int), add_count m k c k = some ((m k).getD 0 + c)) ∧
    (∀ k : String, Ledger.empty k = none) ∧
    (runLines exTitles Ledger.empty [exLine1, exLine2, exLine3ok]).map
        (fun r => ((r.2.1).map (fun o => o.owned), r.2.2)) = some (["100", "200", "150"], []) ∧
    (runLines exTitles Ledger.empty [exLine1, exLine2, exLine3bad]).map
        (fun r => ((r.2.1).map (fun o => o.owned), r.2.2)) =
      some (["100", "200", "150"], [{ vendor := 200, total := 150, date := "2024-01-03" }]) := by
  refine ⟨?_, fun k => rfl, by decide, by decide⟩
  intro m k c
  simp [add_count]

/-- Claim C3: the trade classifier is a total function on business-type
tokens; the eight recognized tokens map to Sell/Buy/TransferIn(`In`)/
TransferOut(`Out`) with their display labels, and every other token maps
to Ignore with no label. -/
theorem claim_C3_classifier_total :
    classify "证券卖出" = (Trade.Sell, some "卖出") ∧
    classify "证券买入" = (Trade.Buy, some "买入") ∧
    classify "开放基金认购结果" = (Trade.Buy, some "买入") ∧
    classify "银证转存" = (Trade.In, some "银证转入") ∧
    classify "银行转存" = (Trade.In, some "银证转入") ∧
    classify "利息归本" = (Trade.In, some "银证转入") ∧
    classify "银证转取" = (Trade.Out, some "银证转出") ∧
    classify "银行转取" = (Trade.Out, some "银证转出") ∧
    (∀ s : String, s ∉ classifiedTokens → classify s = (Trade.Ignore, none)) := by
  refine ⟨by decide, by decide, by decide, by decide, by decide, by decide, by decide,
    by decide, ?_⟩
  intro s hs
  simp only [classifiedTokens, List.mem_cons, List.not_mem_nil, or_false, not_or] at hs
  obtain ⟨h1, h2, h3, h4, h5, h6, h7, h8⟩ := hs
  simp [classify, h1, h2, h3, h4, h5, h6, h7, h8]

/-- Witness for C3: an unrecognized token is classified Ignore with no
label. -/
theorem claim_C3_classifier_total_witness :
    classify "银证转账" = (Trade.Ignore, none) :=
  claim_C3_classifier_total.2.2.2.2.2.2.2.2 "银证转账" (by decide)

/-- Claim C4: a record is valid iff its action differs from Ignore, and
a producer only ever sends records that pass the validity check, so an
Ignore record is never delivered into the queue. -/
theorem claim_C4_valid_filter :
    (∀ o : DeliveryOrder, o.is_valid = true ↔ o.trade ≠ Trade.Ignore) ∧
    (∀ (titles : List String) (cnt : Ledger) (lines : List String) (o : DeliveryOrder),
      some o ∈ (extractLines titles cnt lines).2.2 → o.is_valid = true) := by
  constructor
  · intro o
    unfold DeliveryOrder.is_valid
    cases h : o.trade <;> simp [h]
  · intro t cnt ls o
    exact extractLines_mem_valid ls t cnt o

/-- Witness for C4: the sell record sent for `sellLine` is valid. -/
theorem claim_C4_valid_filter_witness :
    sellOrder.is_valid = true :=
  claim_C4_valid_filter.2 sellTitles Ledger.empty [sellLine] sellOrder (by decide)

/-- Counterexample to claim C6 as stated: on the non-numeric quantity
text "abc" the mapper does not fail with a typed, recoverable parse
error — `Context::gen_order` calls `.expect(..)` on the parse result
(src/htsc.rs lines 80-83), aborting the process.  In this embedding the
panic is the `none` result: there is no error value a caller could
receive. -/
theorem claim_C6_counterexample :
    gen_order Ledger.empty ["成交数量"] "abc" = none := by
  have h : (gen_order Ledger.empty ["成交数量"] "abc").isNone = true := by decide
  exact Option.isNone_iff_eq_none.mp h

/-- Claim C6 amended: numeric parsing of the quantity column tolerates
decimal text ("100.0" parses to magnitude 100, "200.0" to a sell of
-200), but on non-numeric quantity text the mapper panics (process
abort, modelled by `none`) rather than returning a typed parse error. -/
theorem claim_C6_decimal_tolerated :
    parseDecimal "100.0" = some 100 ∧
    (gen_order Ledger.empty sellTitles "证券买入\t100.0").map (fun r => r.2.1.count) =
      some "100" ∧
    (gen_order Ledger.empty sellTitles sellLine).map (fun r => r.2.1.count) =
      some "-200" ∧
    parseDecimal "abc" = none ∧
    (gen_order Ledger.empty ["成交数量"] "abc").isNone = true := by
  exact ⟨by decide, by decide, by decide, by decide, by decide⟩

theorem consume_none {α : Type} (n : Nat) (rest : List (Option α)) :
    consume n ((none : Option α) :: rest) = if n = 1 then [] else consume (n - 1) rest := rfl

theorem consume_some {α : Type} (n : Nat) (r : α) (rest : List (Option α)) :
    consume n (some r :: rest) = r :: consume n rest := rfl

/-- A producer's message list — its records followed by the single
sentinel — contains exactly one sentinel. -/
theorem countNone_shape {α : Type} (rs : List α) :
    (rs.map some ++ [(none : Option α)]).countP (fun x => x.isNone) = 1 := by
  induction rs with
  | nil => rfl
  | cons r rs ih =>
    rw [List.map_cons, List.cons_append, List.countP_cons]
    simp [ih]

/-- Replacing the list at a present index changes a mapped sum by the
difference at that index. -/
theorem sum_map_set {β : Type} (f : β → Nat) :
    ∀ (ls : List β) (i : Nat) (a b : β), ls[i]? = some a →
      ((ls.set i b).map f).sum + f a = (ls.map f).sum + f b := by
  intro ls
  induction ls with
  | nil => intro i a b h; simp at h
  | cons x xs ih =>
    intro i a b h
    cases i with
    | zero =>
      simp only [List.getElem?_cons_zero, Option.some.injEq] at h
      subst h
      simp only [List.set_cons_zero, List.map_cons, List.sum_cons]
      omega
    | succ j =>
      simp only [List.getElem?_cons_succ] at h
      have h2 := ih j a b h
      simp only [List.set_cons_succ, List.map_cons, List.sum_cons]
      omega

/-- Once every producer stream is exhausted nothing further arrives. -/
theorem interleave_out_nil {α : Type} (ls : List (List α)) (out : List α)
    (h : Interleave ls out) (he : ∀ l ∈ ls, l = []) : out = [] := by
  cases h with
  | done ls2 he2 => rfl
  | step ls2 i x l out2 hg hI =>
    have hx := he _ (List.getElem?_mem hg)
    simp at hx

/-- The arrival stream carries exactly the messages of the producer
streams: counts are preserved. -/
theorem interleave_countP {α : Type} (p : α → Bool) (ls : List (List α)) (out : List α)
    (h : Interleave ls out) :
    out.countP p = (ls.map (fun l => l.countP p)).sum := by
  induction h with
  | done ls2 he =>
    symm
    refine List.sum_eq_zero ?_
    intro x hx
    obtain ⟨l, hl, rfl⟩ := List.mem_map.mp hx
    rw [he l hl]
    rfl
  | step ls2 i x l out2 hg hI ih =>
    have hsum := sum_map_set (fun l2 => l2.countP p) ls2 i (x :: l) l hg
    simp only [List.countP_cons] at hsum
    rw [List.countP_cons, ih]
    omega

/-- Main consumer lemma: when every producer stream is its records
followed by one final sentinel (or already drained), the consumer that
stops at the last expected sentinel appends exactly the records of the
arrival stream, in arrival order. -/
theorem consume_interleave {α : Type} (ls : List (List (Option α)))
    (stream : List (Option α)) (h : Interleave ls stream)
    (hs : ∀ l ∈ ls, l = [] ∨ ∃ rs : List α, l = rs.map some ++ [none]) :
    consume (sentinelCount ls) stream = stream.filterMap id := by
  induction h with
  | done ls2 he => rfl
  | step ls2 i x l out hg hI ih =>
    rcases hs _ (List.getElem?_mem hg) with he | ⟨rs, hrs⟩
    · simp at he
    · cases rs with
      | nil =>
        simp only [List.map_nil, List.nil_append, List.cons.injEq] at hrs
        obtain ⟨hx, hl⟩ := hrs
        subst hx
        subst hl
        have hsum := sum_map_set (fun l2 => l2.countP (fun y => y.isNone)) ls2 i [none] [] hg
        simp only [List.countP_cons, List.countP_nil, Option.isNone_none,
          eq_self_iff_true, if_true] at hsum
        have hinv : ∀ l2 ∈ ls2.set i [],
            l2 = [] ∨ ∃ rs2 : List α, l2 = rs2.map some ++ [none] := by
          intro l2 hl2
          rcases List.mem_or_eq_of_mem_set hl2 with h2 | h2
          · exact hs _ h2
          · exact Or.inl h2
        have hn : sentinelCount ls2 = sentinelCount (ls2.set i []) + 1 := by
          unfold sentinelCount
          omega
        by_cases hz : sentinelCount (ls2.set i []) = 0
        · have hempty : ∀ l2 ∈ ls2.set i [], l2 = [] := by
            intro l2 hl2
            rcases hinv l2 hl2 with h2 | ⟨rs2, h2⟩
            · exact h2
            · exfalso
              have hmem : l2.countP (fun y => y.isNone) ∈
                  (ls2.set i []).map (fun l3 => l3.countP (fun y => y.isNone)) :=
                List.mem_map_of_mem _ hl2
              have hle := List.single_le_sum (fun x hx => Nat.zero_le x) _ hmem
              rw [h2, countNone_shape] at hle
              unfold sentinelCount at hz
              omega
          have hout : out = [] := interleave_out_nil _ _ hI hempty
          subst hout
          rw [hn, hz]
          rfl
        · rw [hn, consume_none, if_neg (by omega)]
          have he1 : sentinelCount (ls2.set i []) + 1 - 1 = sentinelCount (ls2.set i []) := by
            omega
          rw [he1, ih hinv]
          simp
      | cons r rs2 =>
        simp only [List.map_cons, List.cons_append, List.cons.injEq] at hrs
        obtain ⟨hx, hl⟩ := hrs
        subst hx
        have hsum := sum_map_set (fun l2 => l2.countP (fun y => y.isNone)) ls2 i (some r :: l) l hg
        simp only [List.countP_cons, Option.isNone_some, Bool.false_eq_true, if_false] at hsum
        have hn : sentinelCount ls2 = sentinelCount (ls2.set i l) := by
          unfold sentinelCount
          omega
        have hinv : ∀ l2 ∈ ls2.set i l,
            l2 = [] ∨ ∃ rs3 : List α, l2 = rs3.map some ++ [none] := by
          intro l2 hl2
          rcases List.mem_or_eq_of_mem_set hl2 with h2 | h2
          · exact hs _ h2
          · subst h2
            exact Or.inr ⟨rs2, hl⟩
        rw [hn, consume_some, ih hinv]
        simp

/-- When every producer stream still holds its single final sentinel,
the number of pending sentinels equals the number of producers. -/
theorem sentinelCount_shaped {α : Type} (ls : List (List (Option α)))
    (hs : ∀ l ∈ ls, ∃ rs : List α, l = rs.map some ++ [none]) :
    sentinelCount ls = ls.length := by
  induction ls with
  | nil => rfl
  | cons a as ih =>
    obtain ⟨rs, hr⟩ := hs a (List.mem_cons_self _ _)
    have h2 := ih (fun l hl => hs l (List.mem_cons_of_mem _ hl))
    unfold sentinelCount at h2 ⊢
    simp only [List.map_cons, List.sum_cons, List.length_cons]
    rw [hr, countNone_shape, h2]
    omega

/-- A producer that reaches end of input sends its valid records in line
order followed by exactly one sentinel. -/
theorem extractLines_shape :
    ∀ (lines : List String) (titles : List String) (cnt c : Ledger)
      (msgs : List (Option DeliveryOrder)),
      extractLines titles cnt lines = (true, c, msgs) →
      ∃ rs : List DeliveryOrder, msgs = rs.map some ++ [none] := by
  intro lines
  induction lines with
  | nil =>
    intro t cnt c msgs h
    simp only [extractLines, Prod.mk.injEq] at h
    exact ⟨[], h.2.2.symm⟩
  | cons l ls ih =>
    intro t cnt c msgs h
    unfold extractLines at h
    cases hg : gen_order cnt t l with
    | none => rw [hg] at h; simp at h
    | some r =>
      rw [hg] at h
      obtain ⟨c2, o2, ds⟩ := r
      by_cases hv : o2.is_valid
      · simp only [hv, if_true, Prod.mk.injEq] at h
        obtain ⟨hb, hc, hm⟩ := h
        have hE : extractLines t c2 ls =
            (true, (extractLines t c2 ls).2.1, (extractLines t c2 ls).2.2) := by
          rw [← hb]
        obtain ⟨rs, hrs⟩ := ih t c2 _ _ hE
        refine ⟨o2 :: rs, ?_⟩
        rw [← hm, hrs]
        rfl
      · simp only [hv, if_false, Bool.false_eq_true] at h
        exact ih t c2 c msgs h

/-- Claim C8: each producer that reaches end of input sends exactly one
sentinel regardless of how many records it produced; for N producers the
consumer that stops at the Nth sentinel observes all N sentinels and
appends exactly the non-sentinel records of the arrival stream, in
arrival order. -/
theorem claim_C8_sentinel_accounting :
    (∀ (titles : List String) (cnt c : Ledger) (lines : List String)
       (msgs : List (Option DeliveryOrder)),
       extractLines titles cnt lines = (true, c, msgs) →
       msgs.countP (fun x => x.isNone) = 1) ∧
    (∀ (pss : List (List (Option DeliveryOrder))) (stream : List (Option DeliveryOrder)),
       Interleave pss stream →
       (∀ l ∈ pss, ∃ rs : List DeliveryOrder, l = rs.map some ++ [none]) →
       stream.countP (fun x => x.isNone) = pss.length ∧
       consume pss.length stream = stream.filterMap id) := by
  constructor
  · intro t cnt c lines msgs h
    obtain ⟨rs, hrs⟩ := extractLines_shape lines t cnt c msgs h
    rw [hrs]
    exact countNone_shape rs
  · intro pss stream hI hshape
    constructor
    · rw [interleave_countP _ pss stream hI]
      have h2 := sentinelCount_shaped pss hshape
      unfold sentinelCount at h2
      exact h2
    · rw [← sentinelCount_shaped pss hshape]
      exact consume_interleave pss stream hI (fun l hl => Or.inr (hshape l hl))

/-- Witness for C8: two producers, one with a single record and one with
none; in the arrival order record-sentinel-sentinel the consumer counts
both sentinels and appends exactly the one record. -/
theorem claim_C8_sentinel_accounting_witness :
    ([some sampleOrder, none, none] : List (Option DeliveryOrder)).countP (fun x => x.isNone) =
      ([[some sampleOrder, none], [none]] : List (List (Option DeliveryOrder))).length ∧
    consume ([[some sampleOrder, none], [none]] : List (List (Option DeliveryOrder))).length
        [some sampleOrder, none, none] =
      ([some sampleOrder, none, none] : List (Option DeliveryOrder)).filterMap id :=
  claim_C8_sentinel_accounting.2 [[some sampleOrder, none], [none]]
    [some sampleOrder, none, none]
    (Interleave.step _ 0 _ _ _ rfl
      (Interleave.step _ 0 _ _ _ rfl
        (Interleave.step _ 1 _ _ _ rfl
          (Interleave.done _ (by decide)))))
    (by
      intro l hl
      simp only [List.mem_cons, List.not_mem_nil, or_false] at hl
      rcases hl with h | h
      · exact ⟨[sampleOrder], by rw [h]; rfl⟩
      · exact ⟨[], by rw [h]; rfl⟩)
